import Mathlib

/- Verification of the FlatBuffers Go post-processor
   (cmd/tools/fbsprocessor/internal/fbstools/languages/go.go).

   The Go abstract syntax tree is shallowly embedded with exactly the node
   shapes the processor inspects: import paths, field declarations with
   their type expressions, type declarations, and function declarations.
   The functions below are direct translations of the Go source:
   hasFlatBuffersImport, usesFlatBuffersTable, isFlatBufferFile,
   hasNameMethod, patchAST, ProcessFile, PostProcess, and the
   flatbufferCode template together with its generated GetFlatDataByName
   lookup. -/

namespace Fbs

/-- Token kind of a Go general declaration (go/token subset used by the
processor: patchAST only compares against token.TYPE). -/
inductive Tok where
  | typeTok
  | importTok
  | constTok
  | varTok
deriving DecidableEq

mutual
/-- Go type and value expressions, as far as the processor inspects them:
ast.Ident, ast.SelectorExpr, ast.StarExpr and ast.StructType; every other
expression shape is collapsed into otherExpr, which the processor treats
uniformly (it recurses into none of that shape and matches none). -/
inductive GoExpr where
  | ident (name : String)
  | selector (x : GoExpr) (sel : String)
  | star (x : GoExpr)
  | structType (fields : List GoField)
  | otherExpr

/-- An ast.Field: named (or anonymous) entries of struct field lists,
receiver lists, parameter lists and result lists, carrying a type
expression. -/
inductive GoField where
  | mk (names : List String) (ty : GoExpr)
end

/-- Type expression carried by a field. -/
def GoField.ty : GoField → GoExpr
  | .mk _ t => t

/-- Statements, as far as the processor builds or walks them: the
synthesized accessor body is a single ast.ReturnStmt. -/
inductive GoStmt where
  | ret (results : List GoExpr)
  | otherStmt

/-- An ast.FuncType: parameter and result field lists. -/
structure FuncType where
  params : List GoField
  results : List GoField

/-- A specification inside an ast.GenDecl: ast.TypeSpec carries the
declared type name and its underlying type expression; import, const and
var specs are collapsed into otherSpec (the processor skips them). -/
inductive GoSpec where
  | typeSpec (name : String) (ty : GoExpr)
  | otherSpec

/-- A top-level Go declaration: ast.GenDecl with its token and spec list,
ast.FuncDecl with receiver (none for a plain function), name, signature
and body, or any other declaration shape. In a Go file ast.FuncDecl only
occurs at the top level, which the embedding reflects. -/
inductive GoDecl where
  | genDecl (tok : Tok) (specs : List GoSpec)
  | funcDecl (recv : Option (List GoField)) (name : String) (ftype : FuncType)
      (body : List GoStmt)
  | otherDecl

/-- An ast.File: the flattened import path list (each entry is the
ImportSpec Path.Value, quotes included, mirroring file.Imports) and the
ordered top-level declaration list. -/
structure GoFile where
  importPaths : List String
  decls : List GoDecl

/-- Drop every leading and trailing double-quote character, as
strings.Trim(imp.Path.Value, quote cutset) does in hasFlatBuffersImport. -/
def trimQuotes (s : String) : String :=
  String.mk (((s.toList.dropWhile (fun c => c = '"')).reverse.dropWhile
    (fun c => c = '"')).reverse)

/-- The reserved runtime-support module path checked by the detector. -/
def flatbuffersImportPath : String := "github.com/google/flatbuffers/go"

/-- Translation of hasFlatBuffersImport: some import path, with its
surrounding quotes trimmed, equals the flatbuffers module path. -/
def hasFlatBuffersImport (file : GoFile) : Bool :=
  file.importPaths.any (fun imp => trimQuotes imp == flatbuffersImportPath)

/-- The sentinel check applied to a field type in usesFlatBuffersTable: a
SelectorExpr whose X is the identifier flatbuffers and whose Sel is
Table. -/
def isTableSelector : GoExpr → Bool
  | .selector (.ident x) sel => x == "flatbuffers" && sel == "Table"
  | _ => false

mutual
/-- Walk of usesFlatBuffersTable below an expression node: ast.Inspect
recurses through selector bases, star operands and struct field lists
looking for a matching ast.Field. -/
def exprUsesTable : GoExpr → Bool
  | .ident _ => false
  | .selector x _ => exprUsesTable x
  | .star x => exprUsesTable x
  | .structType fs => fieldsUseTable fs
  | .otherExpr => false

/-- Walk of usesFlatBuffersTable at an ast.Field node: the field matches
when its type is the flatbuffers.Table selector; otherwise the walk
continues into the type expression. -/
def fieldUsesTable : GoField → Bool
  | .mk _ ty => isTableSelector ty || exprUsesTable ty

/-- Walk of usesFlatBuffersTable over a field list. -/
def fieldsUseTable : List GoField → Bool
  | [] => false
  | f :: fs => fieldUsesTable f || fieldsUseTable fs
end

/-- Walk of usesFlatBuffersTable below a statement. -/
def stmtUsesTable : GoStmt → Bool
  | .ret es => es.any exprUsesTable
  | .otherStmt => false

/-- Walk of usesFlatBuffersTable below a GenDecl spec. -/
def specUsesTable : GoSpec → Bool
  | .typeSpec _ ty => exprUsesTable ty
  | .otherSpec => false

/-- Walk of usesFlatBuffersTable below a receiver field list. -/
def recvUsesTable : Option (List GoField) → Bool
  | some fs => fieldsUseTable fs
  | none => false

/-- Walk of usesFlatBuffersTable below one top-level declaration:
ast.Inspect visits the specs of a GenDecl and the receiver, parameter,
result and body subtrees of a FuncDecl. -/
def declUsesTable : GoDecl → Bool
  | .genDecl _ specs => specs.any specUsesTable
  | .funcDecl recv _ ftype body =>
      recvUsesTable recv || fieldsUseTable ftype.params ||
        fieldsUseTable ftype.results || body.any stmtUsesTable
  | .otherDecl => false

/-- Translation of usesFlatBuffersTable: ast.Inspect over the whole file
reporting whether any ast.Field node has the flatbuffers.Table selector as
its declared type. -/
def usesFlatBuffersTable (file : GoFile) : Bool :=
  file.decls.any declUsesTable

/-- Translation of isFlatBufferFile: the import check runs first and
short-circuits; only when it succeeds is the table-field walk consulted. -/
def isFlatBufferFile (file : GoFile) : Bool :=
  hasFlatBuffersImport file && usesFlatBuffersTable file

/-- Whether a single field is sentinel-typed, without any recursion: its
declared type is literally the flatbuffers.Table selector. -/
def fieldIsTable : GoField → Bool
  | .mk _ ty => isTableSelector ty

mutual
/-- All ast.Field nodes occurring below an expression, in visit order. -/
def exprFields : GoExpr → List GoField
  | .ident _ => []
  | .selector x _ => exprFields x
  | .star x => exprFields x
  | .structType fs => fieldsFields fs
  | .otherExpr => []

/-- All ast.Field nodes at or below one field: the field itself followed
by the fields nested inside its type expression. -/
def fieldFields : GoField → List GoField
  | .mk ns ty => GoField.mk ns ty :: exprFields ty

/-- All ast.Field nodes at or below a field list. -/
def fieldsFields : List GoField → List GoField
  | [] => []
  | f :: fs => fieldFields f ++ fieldsFields fs
end

/-- All ast.Field nodes below a statement. -/
def stmtFields : GoStmt → List GoField
  | .ret es => es.flatMap exprFields
  | .otherStmt => []

/-- All ast.Field nodes below a GenDecl spec. -/
def specFields : GoSpec → List GoField
  | .typeSpec _ ty => exprFields ty
  | .otherSpec => []

/-- All ast.Field nodes below a receiver field list. -/
def recvFields : Option (List GoField) → List GoField
  | some fs => fieldsFields fs
  | none => []

/-- All ast.Field nodes below one top-level declaration. -/
def declFields : GoDecl → List GoField
  | .genDecl _ specs => specs.flatMap specFields
  | .funcDecl recv _ ftype body =>
      recvFields recv ++ fieldsFields ftype.params ++
        fieldsFields ftype.results ++ body.flatMap stmtFields
  | .otherDecl => []

/-- All ast.Field nodes of a file, in the order ast.Inspect visits them. -/
def fileFields (file : GoFile) : List GoField :=
  file.decls.flatMap declFields

/-- Translation of hasNameMethod: ast.Inspect stops at every ast.FuncDecl
(whether or not it has a receiver) and reports whether one is named
Name. FuncDecl nodes occur only at the top level of a file. -/
def isNameFuncDecl : GoDecl → Bool
  | .funcDecl _ name _ _ => name == "Name"
  | _ => false

/-- Translation of hasNameMethod over a whole file. -/
def hasNameMethod (tree : GoFile) : Bool :=
  tree.decls.any isNameFuncDecl

/-- The string-literal token the patcher builds with fmt.Sprintf: the type
name surrounded by double quotes, wrapped in an ast.Ident by the source. -/
def quoteName (s : String) : String := "\"" ++ s ++ "\""

/-- The accessor declaration patchAST synthesizes for one struct type: a
method on the pointer receiver of the type, named Name, with no
parameters, one string result and a body returning the quoted type name. -/
def mkNameAccessor (typeName : String) : GoDecl :=
  .funcDecl (some [GoField.mk [] (.star (.ident typeName))]) "Name"
    ⟨[], [GoField.mk [] (.ident "string")]⟩
    [.ret [.ident (quoteName typeName)]]

/-- Accessor synthesized from one TypeSpec inside a TYPE GenDecl: only a
spec whose underlying type is an ast.StructType produces one, exactly as
the type switch in patchAST. -/
def specAccessor : GoSpec → Option GoDecl
  | .typeSpec name (.structType _) => some (mkNameAccessor name)
  | _ => none

/-- Accessors synthesized while ast.Inspect visits one top-level
declaration: only a GenDecl with token.TYPE contributes, one accessor per
struct-typed spec, in spec order. -/
def declAccessors : GoDecl → List GoDecl
  | .genDecl Tok.typeTok specs => specs.filterMap specAccessor
  | _ => []

/-- Translation of patchAST: when any Name function is already present
anywhere in the file the tree is returned unmodified; otherwise the
accessors for all struct-typed top-level type specs are appended, in
order, at the end of the declaration list (appending during the walk
never revisits the appended declarations, since range iterates the
original slice header). The Go function also returns an error, which is
nil on every path. -/
def patchAST (tree : GoFile) : GoFile :=
  if hasNameMethod tree then tree
  else { tree with decls := tree.decls ++ tree.decls.flatMap declAccessors }

/-- Names of struct-typed top-level type specs, in declaration order;
this is the spec-side description of which declarations receive an
accessor. -/
def tspecStructName : GoSpec → Option String
  | .typeSpec name (.structType _) => some name
  | _ => none

/-- Struct type names contributed by one declaration. -/
def declStructNames : GoDecl → List String
  | .genDecl Tok.typeTok specs => specs.filterMap tspecStructName
  | _ => []

/-- Struct type names of a whole file, in declaration order. -/
def structTypeNames (tree : GoFile) : List String :=
  tree.decls.flatMap declStructNames

/-- Every type name declared in the file by any TypeSpec, struct-typed or
not; used to compare the recorded registry key against the declarations
of the file. -/
def declaredTypeNames (tree : GoFile) : List String :=
  tree.decls.flatMap fun d =>
    match d with
    | .genDecl _ specs =>
        specs.filterMap fun s =>
          match s with
          | .typeSpec name _ => some name
          | .otherSpec => none
    | _ => []

/-- Translation of filepath.Base for slash-separated paths: the empty
path maps to a dot, trailing slashes are removed, the last path element
is returned, and an all-slash path maps to a single slash. -/
def basename (path : String) : String :=
  if path = "" then "."
  else
    let rev := path.toList.reverse.dropWhile (fun c => c = '/')
    let name := rev.takeWhile (fun c => c ≠ '/')
    if name = [] then "/" else String.mk name.reverse

/-- Translation of strings.TrimSuffix: drop the suffix when present,
otherwise return the string unchanged. -/
def trimSuffix (s suffix : String) : String :=
  if List.isSuffixOf suffix.toList s.toList then
    String.mk (s.toList.take (s.toList.length - suffix.toList.length))
  else s

/-- Translation of the GoProcessor Extension method. -/
def Extension : String := ".go"

/-- The name ProcessFile appends to the accumulated flatbuffers slice:
the base name of the processed path with the language extension
trimmed. -/
def recordedName (filePath : String) : String :=
  trimSuffix (basename filePath) Extension

/-- Error kinds a ProcessFile run can surface, one per return path of the
Go function. Modelled from the spec for the part outside src:
ErrFlatBuffersNotImported is only referenced by ProcessFile, its
defining declaration is not among the sources; per the spec error list it
is the distinguishable NotARecordFile sentinel, distinct from the parse,
patch, create and print failures, which the distinct constructors
capture. -/
inductive ProcErr where
  | parseError
  | flatBuffersNotImported
  | patchError
  | createError
  | printError
deriving DecidableEq

/-- Outcome of one ProcessFile call: the accumulated flatbuffers slice
after the call, the returned error if any, and the tree written back to
the file, none when the file content was not (completely) rewritten. -/
structure ProcResult where
  flatbuffers : List String
  err : Option ProcErr
  written : Option GoFile

/-- Translation of ProcessFile, with the effectful collaborators made
explicit: parsed is the go parser outcome for the file (none for a syntax
error), createOk tells whether os.Create succeeds and printOk whether
printer.Fprint succeeds. The source parses, runs the detector, appends
the recorded name to the flatbuffers slice, patches the tree (patchAST
never fails), creates the file and prints the tree, returning at the
first failing step. -/
def ProcessFile (flatbuffers : List String) (filePath : String)
    (parsed : Option GoFile) (createOk printOk : Bool) : ProcResult :=
  match parsed with
  | none => ⟨flatbuffers, some .parseError, none⟩
  | some tree =>
      if isFlatBufferFile tree then
        let flatbuffers := flatbuffers ++ [recordedName filePath]
        let patched := patchAST tree
        if createOk then
          if printOk then ⟨flatbuffers, none, some patched⟩
          else ⟨flatbuffers, some .printError, none⟩
        else ⟨flatbuffers, some .createError, none⟩
      else ⟨flatbuffers, some .flatBuffersNotImported, none⟩

/-- Translation of the sort.Strings call in PostProcess: ascending
lexicographic sort of the accumulated names. -/
def sortStrings (l : List String) : List String :=
  l.mergeSort (fun a b => decide (a ≤ b))

/-- Text of the flatbufferCode template before the range block. -/
def registryHeader : String :=
  "package flatdata\n\nimport (\n\t\"reflect\"\n)\n\nvar fbs = map[string]reflect.Type\x7b"

/-- Text the range block of the flatbufferCode template emits for one
name: the leading newline of the body survives, the trailing one is
trimmed by the end action. -/
def registryEntry (n : String) : String :=
  "\n\t\"" ++ n ++ "\": reflect.TypeOf((*" ++ n ++ ")(nil)).Elem(),"

/-- Text of the flatbufferCode template after the range block, declaring
the GetFlatDataByName lookup function. -/
def registryFooter : String :=
  "\n\x7d\n\nfunc GetFlatDataByName(name string) any \x7b\n\tif data, ok := fbs[name]; ok \x7b\n\t\treturn reflect.New(data).Interface()\n\t\x7d\n\treturn nil\n\x7d\n"

/-- Rendering of the flatbufferCode template over a name list. -/
def renderRegistry (names : List String) : String :=
  registryHeader ++ String.join (names.map registryEntry) ++ registryFooter

/-- Translation of PostProcess as a function from the accumulated
flatbuffers slice to the bytes of the emitted flatdatas_helper.go file:
sort the slice ascending, then execute the template over it. -/
def PostProcess (flatbuffers : List String) : String :=
  renderRegistry (sortStrings flatbuffers)

/-- Runtime type descriptors of the emitted registry: a named type or a
pointer type, mirroring reflect.Type as far as the generated code uses
it. -/
inductive RType where
  | named (n : String)
  | ptr (t : RType)
deriving DecidableEq

/-- A dynamic value as the generated lookup hands it out: its runtime
type together with whether it is zero-valued. -/
structure GoValue where
  rtype : RType
  isZero : Bool
deriving DecidableEq

/-- Model of reflect.New(t).Interface(): a freshly constructed zero value
of type t, returned through a dynamic handle. -/
def reflectNew (t : RType) : GoValue := ⟨t, true⟩

/-- The fbs map of the generated registry file: each emitted key n is
bound to reflect.TypeOf((pointer to n) nil).Elem(), the named type n
itself. -/
def fbsLookup (names : List String) (name : String) : Option RType :=
  if name ∈ names then some (RType.named name) else none

/-- Translation of the generated GetFlatDataByName function: on a map
hit return reflect.New of the bound type through an interface, otherwise
return the nil not-found result (modelled as none). -/
def GetFlatDataByName (names : List String) (name : String) : Option GoValue :=
  match fbsLookup names name with
  | some data => some (reflectNew data)
  | none => none

/-- Modelled from the spec: identifier syntax of the target language (a
letter or underscore followed by letters, digits or underscores), used to
state the RecordTypeName invariant; no identifier validation exists in
the source. -/
def isGoLetter (c : Char) : Bool := c.isAlpha || c = '_'

/-- Modelled from the spec: a character allowed after the first one in an
identifier of the target language. -/
def isGoIdentChar (c : Char) : Bool := isGoLetter c || c.isDigit

/-- Modelled from the spec: whether a string is a valid identifier of the
target language. -/
def isGoIdentifier (s : String) : Bool :=
  match s.toList with
  | [] => false
  | c :: cs => isGoLetter c && cs.all isGoIdentChar

/-- Flattening lemma: a pointwise description of a Bool walk by a node
collection turns List.any over the walk into List.any over the flattened
collection. -/
theorem any_eq_flatMap_any {α β : Type} (g : α → List β) (q : β → Bool)
    (p : α → Bool) (hp : ∀ a, p a = (g a).any q) :
    ∀ l : List α, l.any p = (l.flatMap g).any q := by
  intro l
  induction l with
  | nil => rfl
  | cons a l ih => simp [List.any_cons, List.flatMap_cons, List.any_append, hp a, ih]

mutual
/-- The expression walk of usesFlatBuffersTable reports exactly whether a
collected field below the expression is sentinel-typed. -/
theorem exprUsesTable_eq : ∀ e, exprUsesTable e = (exprFields e).any fieldIsTable
  | .ident _ => rfl
  | .selector x _ => by simp [exprUsesTable, exprFields, exprUsesTable_eq x]
  | .star x => by simp [exprUsesTable, exprFields, exprUsesTable_eq x]
  | .structType fs => by simp [exprUsesTable, exprFields, fieldsUseTable_eq fs]
  | .otherExpr => rfl

/-- The field walk of usesFlatBuffersTable reports exactly whether a
collected field at or below the field is sentinel-typed. -/
theorem fieldUsesTable_eq : ∀ f, fieldUsesTable f = (fieldFields f).any fieldIsTable
  | .mk ns ty => by
      simp [fieldUsesTable, fieldFields, List.any_cons, exprUsesTable_eq ty,
        fieldIsTable]

/-- The field-list walk of usesFlatBuffersTable reports exactly whether a
collected field below the list is sentinel-typed. -/
theorem fieldsUseTable_eq : ∀ fs, fieldsUseTable fs = (fieldsFields fs).any fieldIsTable
  | [] => rfl
  | f :: fs => by
      simp [fieldsUseTable, fieldsFields, List.any_append, fieldUsesTable_eq f,
        fieldsUseTable_eq fs]
end

/-- Statement-level version of the walk-collection agreement. -/
theorem stmtUsesTable_eq (s : GoStmt) :
    stmtUsesTable s = (stmtFields s).any fieldIsTable := by
  cases s with
  | ret es =>
      simpa [stmtUsesTable, stmtFields] using
        any_eq_flatMap_any exprFields fieldIsTable exprUsesTable exprUsesTable_eq es
  | otherStmt => rfl

/-- Spec-level version of the walk-collection agreement. -/
theorem specUsesTable_eq (s : GoSpec) :
    specUsesTable s = (specFields s).any fieldIsTable := by
  cases s with
  | typeSpec name ty => simpa [specUsesTable, specFields] using exprUsesTable_eq ty
  | otherSpec => rfl

/-- Receiver-level version of the walk-collection agreement. -/
theorem recvUsesTable_eq (r : Option (List GoField)) :
    recvUsesTable r = (recvFields r).any fieldIsTable := by
  cases r with
  | some fs => simpa [recvUsesTable, recvFields] using fieldsUseTable_eq fs
  | none => rfl

/-- Declaration-level version of the walk-collection agreement. -/
theorem declUsesTable_eq (d : GoDecl) :
    declUsesTable d = (declFields d).any fieldIsTable := by
  cases d with
  | genDecl tok specs =>
      simpa [declUsesTable, declFields] using
        any_eq_flatMap_any specFields fieldIsTable specUsesTable specUsesTable_eq specs
  | funcDecl recv name ftype body =>
      simp [declUsesTable, declFields, List.any_append, recvUsesTable_eq,
        fieldsUseTable_eq, stmtUsesTable_eq, Bool.or_assoc,
        any_eq_flatMap_any stmtFields fieldIsTable stmtUsesTable stmtUsesTable_eq body]
  | otherDecl => rfl

/-- File-level version of the walk-collection agreement: the
usesFlatBuffersTable walk succeeds exactly when some field node of the
file is sentinel-typed. -/
theorem usesFlatBuffersTable_eq (file : GoFile) :
    usesFlatBuffersTable file = (fileFields file).any fieldIsTable := by
  simpa [usesFlatBuffersTable, fileFields] using
    any_eq_flatMap_any declFields fieldIsTable declUsesTable declUsesTable_eq file.decls

/-- The accessor produced from one spec is the accessor of its struct
type name, when it has one. -/
theorem specAccessor_eq (s : GoSpec) :
    specAccessor s = (tspecStructName s).map mkNameAccessor := by
  cases s with
  | typeSpec name ty => cases ty <;> rfl
  | otherSpec => rfl

/-- The accessors produced while visiting one declaration are the
accessors of its struct type names. -/
theorem declAccessors_eq (d : GoDecl) :
    declAccessors d = (declStructNames d).map mkNameAccessor := by
  cases d with
  | genDecl tok specs =>
      cases tok with
      | typeTok =>
          show specs.filterMap specAccessor =
            (specs.filterMap tspecStructName).map mkNameAccessor
          rw [List.map_filterMap]
          induction specs with
          | nil => rfl
          | cons s specs ih => simp [List.filterMap_cons, specAccessor_eq s, ih]
      | importTok => rfl
      | constTok => rfl
      | varTok => rfl
  | funcDecl recv name ftype body => rfl
  | otherDecl => rfl

/-- The full accessor list appended by patchAST is the accessor of each
struct type name of the file, in order. -/
theorem flatMap_declAccessors (ds : List GoDecl) :
    ds.flatMap declAccessors = (ds.flatMap declStructNames).map mkNameAccessor := by
  induction ds with
  | nil => rfl
  | cons d ds ih =>
      simp [List.flatMap_cons, List.map_append, declAccessors_eq d, ih]

/-- Every declaration patchAST appends is a function declaration named
Name. -/
theorem accessors_isName (ds : List GoDecl) {d : GoDecl}
    (h : d ∈ ds.flatMap declAccessors) : isNameFuncDecl d = true := by
  rw [flatMap_declAccessors] at h
  rcases List.mem_map.mp h with ⟨n, _, rfl⟩
  simp [isNameFuncDecl, mkNameAccessor]

/-- The sorted accumulated list is sorted ascending. -/
theorem sortStrings_sorted (l : List String) :
    (sortStrings l).Sorted (fun a b => a ≤ b) := by
  have h := @List.sorted_mergeSort String (fun a b => decide (a ≤ b))
    (fun a b c hab hbc => by
      simp only [decide_eq_true_eq] at hab hbc ⊢
      exact le_trans hab hbc)
    (fun a b => by
      simp only [Bool.or_eq_true, decide_eq_true_eq]
      exact le_total a b) l
  exact h.imp (fun hab => of_decide_eq_true hab)

/-- The sorted accumulated list is a permutation of the input. -/
theorem sortStrings_perm (l : List String) : (sortStrings l).Perm l :=
  List.mergeSort_perm l _

/-- Sorting is invariant under permutation of the accumulated list. -/
theorem sortStrings_eq_of_perm {l₁ l₂ : List String} (h : l₁.Perm l₂) :
    sortStrings l₁ = sortStrings l₂ :=
  List.eq_of_perm_of_sorted
    (((sortStrings_perm l₁).trans h).trans (sortStrings_perm l₂).symm)
    (sortStrings_sorted l₁) (sortStrings_sorted l₂)

/-- The sentinel field of the scenario in the spec: a field named with
the underscore-tab name whose type is the flatbuffers.Table selector. -/
def exTableField : GoField :=
  .mk ["_tab"] (.selector (.ident "flatbuffers") "Table")

/-- A record file as the schema compiler emits it: the flatbuffers import
and one struct type named Item holding the sentinel field. -/
def exItemFile : GoFile :=
  { importPaths := ["\"github.com/google/flatbuffers/go\""]
  , decls := [.genDecl .typeTok [.typeSpec "Item" (.structType [exTableField])]] }

/-- The record file above after a previous patch run: its Name accessor
is already present. -/
def exPatchedFile : GoFile :=
  { exItemFile with decls := exItemFile.decls ++ [mkNameAccessor "Item"] }

/-- A helper file with no flatbuffers import, as in the skip scenario of
the spec. -/
def exHelperFile : GoFile :=
  { importPaths := [], decls := [.otherDecl] }

/-- A file declaring a struct type and, separately, a plain receiver-less
function named Name. -/
def exPlainNameFile : GoFile :=
  { importPaths := []
  , decls := [.genDecl .typeTok [.typeSpec "Thing" (.structType [])],
      .funcDecl none "Name" ⟨[], []⟩ []] }

/-- C1: the record-file detector classifies a parsed file as a record
file if and only if the file both imports the runtime-support module path
and has some field node whose declared type is the qualified reference
flatbuffers.Table; in particular a file with the import but no
sentinel-typed field is classified false, and one with such a field but
no import is classified false. -/
theorem detector_iff_signals (f : GoFile) :
    isFlatBufferFile f = true ↔
      ((∃ p ∈ f.importPaths, trimQuotes p = flatbuffersImportPath) ∧
        ∃ fld ∈ fileFields f, fieldIsTable fld = true) := by
  unfold isFlatBufferFile
  rw [Bool.and_eq_true, usesFlatBuffersTable_eq, List.any_eq_true]
  unfold hasFlatBuffersImport
  rw [List.any_eq_true]
  constructor
  · rintro ⟨⟨p, hp, hq⟩, hf⟩
    exact ⟨⟨p, hp, by simpa using hq⟩, hf⟩
  · rintro ⟨⟨p, hp, hq⟩, hf⟩
    exact ⟨⟨p, hp, by simpa using hq⟩, hf⟩

/-- C3: the patch step is idempotent at file granularity: a tree that
already contains a declaration named Name anywhere is returned
unmodified, and running the patch step a second time on the output of the
first run always produces an identical result, duplicating no
accessor. -/
theorem patchAST_idem (tree : GoFile) :
    (hasNameMethod tree = true → patchAST tree = tree) ∧
    patchAST (patchAST tree) = patchAST tree := by
  obtain ⟨imps, ds⟩ := tree
  constructor
  · intro h
    unfold patchAST
    rw [if_pos h]
  · by_cases h : hasNameMethod ⟨imps, ds⟩ = true
    · have h1 : patchAST ⟨imps, ds⟩ = ⟨imps, ds⟩ := by
        unfold patchAST
        rw [if_pos h]
      rw [h1]
      exact h1
    · have h1 : patchAST ⟨imps, ds⟩ = ⟨imps, ds ++ ds.flatMap declAccessors⟩ := by
        unfold patchAST
        rw [if_neg h]
      rw [h1]
      by_cases hnil : ds.flatMap declAccessors = []
      · rw [hnil, List.append_nil, h1, hnil, List.append_nil]
      · obtain ⟨a, as, hacc⟩ := List.exists_cons_of_ne_nil hnil
        have ha : isNameFuncDecl a = true := by
          apply accessors_isName ds
          rw [hacc]
          exact List.Mem.head as
        have hname : hasNameMethod ⟨imps, ds ++ ds.flatMap declAccessors⟩ = true := by
          unfold hasNameMethod
          simp only [List.any_append, Bool.or_eq_true]
          right
          rw [hacc]
          simp [List.any_cons, ha]
        unfold patchAST
        rw [if_pos hname]

/-- Witness for C3 at concrete trees: an already-patched file is a fixed
point, and repatching the patched record file changes nothing. -/
theorem patchAST_idem_witness :
    patchAST exPatchedFile = exPatchedFile ∧
    patchAST (patchAST exItemFile) = patchAST exItemFile :=
  ⟨(patchAST_idem exPatchedFile).1 (by decide), (patchAST_idem exItemFile).2⟩

/-- C4: on a tree with no pre-existing Name declaration, the patch step
appends at the end of the declaration list exactly one accessor per
struct-typed top-level type spec, in order: a method on the pointer
receiver of the type, with no parameters, one string result and a body
returning the quoted type name; non-struct type declarations contribute
nothing. -/
theorem patchAST_appends_accessors (tree : GoFile)
    (h : hasNameMethod tree = false) :
    (patchAST tree).decls = tree.decls ++ (structTypeNames tree).map (fun T =>
      GoDecl.funcDecl (some [GoField.mk [] (GoExpr.star (GoExpr.ident T))]) "Name"
        ⟨[], [GoField.mk [] (GoExpr.ident "string")]⟩
        [GoStmt.ret [GoExpr.ident ("\"" ++ T ++ "\"")]]) := by
  unfold patchAST
  rw [if_neg (by simp [h])]
  show tree.decls ++ tree.decls.flatMap declAccessors = _
  rw [flatMap_declAccessors]
  rfl

/-- Witness for C4 at the concrete record file. -/
theorem patchAST_appends_accessors_witness :
    (patchAST exItemFile).decls =
      exItemFile.decls ++ (structTypeNames exItemFile).map (fun T =>
        GoDecl.funcDecl (some [GoField.mk [] (GoExpr.star (GoExpr.ident T))]) "Name"
          ⟨[], [GoField.mk [] (GoExpr.ident "string")]⟩
          [GoStmt.ret [GoExpr.ident ("\"" ++ T ++ "\"")]]) :=
  patchAST_appends_accessors exItemFile (by decide)

/-- C5: registry emission is deterministic in the accumulated name set:
two accumulated lists holding the same names in any insertion orders
render byte-identical registry files, and the emitted mapping keys are
those names sorted ascending. -/
theorem postProcess_deterministic (l₁ l₂ : List String) (h : l₁.Perm l₂) :
    PostProcess l₁ = PostProcess l₂ ∧
    (sortStrings l₁).Sorted (fun a b => a ≤ b) ∧ (sortStrings l₁).Perm l₁ :=
  ⟨by unfold PostProcess; rw [sortStrings_eq_of_perm h],
   sortStrings_sorted l₁, sortStrings_perm l₁⟩

/-- Witness for C5 on two concrete insertion orders of the same names. -/
theorem postProcess_deterministic_witness :
    PostProcess ["Item", "Ability"] = PostProcess ["Ability", "Item"] ∧
    (sortStrings ["Item", "Ability"]).Sorted (fun a b => a ≤ b) ∧
    (sortStrings ["Item", "Ability"]).Perm ["Item", "Ability"] :=
  postProcess_deterministic ["Item", "Ability"] ["Ability", "Item"]
    (List.Perm.swap "Ability" "Item" [])

/-- C6: when the detector classifies a parsed file as not a record file,
processing returns the distinguishable sentinel (distinct from the
parse, patch, create and print failures), writes nothing back, and leaves
the accumulated name set unchanged. -/
theorem processFile_skips_nonrecord (l : List String) (fp : String)
    (tree : GoFile) (c k : Bool) (h : isFlatBufferFile tree = false) :
    ProcessFile l fp (some tree) c k =
      ⟨l, some ProcErr.flatBuffersNotImported, none⟩ ∧
    ProcErr.flatBuffersNotImported ≠ ProcErr.parseError ∧
    ProcErr.flatBuffersNotImported ≠ ProcErr.patchError ∧
    ProcErr.flatBuffersNotImported ≠ ProcErr.createError ∧
    ProcErr.flatBuffersNotImported ≠ ProcErr.printError := by
  refine ⟨?_, by decide, by decide, by decide, by decide⟩
  simp [ProcessFile, h]

/-- Witness for C6 at the concrete helper file without the import. -/
theorem processFile_skips_nonrecord_witness :
    ProcessFile ["X"] "dir/Helper.go" (some exHelperFile) true true =
      ⟨["X"], some ProcErr.flatBuffersNotImported, none⟩ :=
  (processFile_skips_nonrecord ["X"] "dir/Helper.go" exHelperFile true true
    (by decide)).1

/-- C8: in the emitted registry, the lookup returns a freshly constructed
zero-valued instance of exactly the type registered under the queried
name when the name is a mapping key, and the explicit not-found result
otherwise. -/
theorem getFlatDataByName_correct (l : List String) (name : String) :
    (name ∈ sortStrings l →
      GetFlatDataByName (sortStrings l) name =
        some (reflectNew (RType.named name)) ∧
      (reflectNew (RType.named name)).rtype = RType.named name ∧
      (reflectNew (RType.named name)).isZero = true) ∧
    (name ∉ sortStrings l → GetFlatDataByName (sortStrings l) name = none) := by
  constructor
  · intro h
    refine ⟨?_, rfl, rfl⟩
    simp [GetFlatDataByName, fbsLookup, h]
  · intro h
    simp [GetFlatDataByName, fbsLookup, h]

/-- Witness for C8: a present key yields the fresh instance, an absent
key yields none. -/
theorem getFlatDataByName_correct_witness :
    GetFlatDataByName (sortStrings ["Item"]) "Item" =
      some (reflectNew (RType.named "Item")) ∧
    GetFlatDataByName (sortStrings ["Item"]) "Zed" = none :=
  ⟨((getFlatDataByName_correct ["Item"] "Item").1
      ((sortStrings_perm ["Item"]).mem_iff.mpr (List.Mem.head []))).1,
   (getFlatDataByName_correct ["Item"] "Zed").2
      (fun h => by simpa using (sortStrings_perm ["Item"]).mem_iff.mp h)⟩

/-- C9: the already-patched guard matches any top-level function
declaration named Name, including a plain function with no receiver, and
the patch step then skips the whole file. -/
theorem plainNameFunc_blocks_patch (tree : GoFile) (t : FuncType)
    (b : List GoStmt) (h : GoDecl.funcDecl none "Name" t b ∈ tree.decls) :
    hasNameMethod tree = true ∧ patchAST tree = tree := by
  have hn : hasNameMethod tree = true :=
    List.any_eq_true.mpr ⟨_, h, by simp [isNameFuncDecl]⟩
  refine ⟨hn, ?_⟩
  unfold patchAST
  rw [if_pos hn]

/-- Witness for C9 at a concrete file whose only Name declaration is a
receiver-less plain function next to an unpatched struct type. -/
theorem plainNameFunc_blocks_patch_witness :
    hasNameMethod exPlainNameFile = true ∧
    patchAST exPlainNameFile = exPlainNameFile :=
  plainNameFunc_blocks_patch exPlainNameFile ⟨[], []⟩ []
    (List.Mem.tail _ (List.Mem.head _))

/-- C10: the recorded name is appended to the accumulated set right after
detection succeeds and before patching and writing, so a later create or
print failure still leaves the name in the set. -/
theorem processFile_appends_before_write (l : List String) (fp : String)
    (tree : GoFile) (c k : Bool) (h : isFlatBufferFile tree = true) :
    (ProcessFile l fp (some tree) c k).flatbuffers = l ++ [recordedName fp] ∧
    (ProcessFile l fp (some tree) false k).err = some ProcErr.createError ∧
    (ProcessFile l fp (some tree) true false).err = some ProcErr.printError := by
  refine ⟨?_, ?_, ?_⟩ <;> cases c <;> cases k <;> simp [ProcessFile, h]

/-- Witness for C10 at the concrete record file. -/
theorem processFile_appends_before_write_witness :
    (ProcessFile [] "dir/Item.go" (some exItemFile) true true).flatbuffers =
      [] ++ [recordedName "dir/Item.go"] ∧
    (ProcessFile [] "dir/Item.go" (some exItemFile) false true).err =
      some ProcErr.createError ∧
    (ProcessFile [] "dir/Item.go" (some exItemFile) true false).err =
      some ProcErr.printError :=
  processFile_appends_before_write [] "dir/Item.go" exItemFile true true (by decide)

/-- C2 counterexample: a qualifying record file processed under the path
dir/foo-bar.go records the key foo-bar, which is not among the declared
type names of the file and is not a valid identifier of the target
language, refuting the claim that the recorded name is derived from the
type declarations and is always a valid identifier. -/
theorem recordedName_counterexample :
    (ProcessFile [] "dir/foo-bar.go" (some exItemFile) true true).flatbuffers =
      ["foo-bar"] ∧
    declaredTypeNames exItemFile = ["Item"] ∧
    ¬ ("foo-bar" ∈ declaredTypeNames exItemFile) ∧
    isGoIdentifier "foo-bar" = false := by
  refine ⟨by decide, by decide, by decide, by decide⟩

/-- C2 amended: the name recorded for a qualifying file (and hence the
registry key) is the base name of the processed file path with the
language extension trimmed, independent of the type declarations of the
file. -/
theorem processFile_records_basename (l : List String) (fp : String)
    (tree : GoFile) (h : isFlatBufferFile tree = true) :
    (ProcessFile l fp (some tree) true true).flatbuffers =
      l ++ [trimSuffix (basename fp) Extension] := by
  simp [ProcessFile, h, recordedName]

/-- Witness for the amended C2 at the concrete record file. -/
theorem processFile_records_basename_witness :
    (ProcessFile [] "dir/foo-bar.go" (some exItemFile) true true).flatbuffers =
      [] ++ [trimSuffix (basename "dir/foo-bar.go") Extension] :=
  processFile_records_basename [] "dir/foo-bar.go" exItemFile (by decide)

end Fbs
